import Mathlib

/-!
Verification of the multi-board state synchronization and change-notification
engine of `jira-boards-tui`.

The embedding mirrors the Go sources:
  * `pkg/state/state.go` — the snapshot store (`AppState`, `BoardState`,
    `IssueState`) and its operations `GetBoardState`, `UpdateIssueState`,
    `HasIssueChanged`, plus JSON persistence (`SaveState` / `LoadState`).
  * the main TUI file — `ChangeNotification`, `detectAndStoreChanges`
    (the change detector, including its inline aging pass) and
    `cleanupChangeQueue` (the aging sweeper).

Modelling conventions:
  * A Go `map[string]V` is an association list `List (String × V)`; Go maps
    never hold a key twice, and assignment `m[k] = v` replaces the entry for
    `k` when present and inserts it otherwise (`mapInsert`).
  * Go methods mutate their receiver through a pointer; here each operation
    returns the updated state explicitly.
  * `time.Time` is an integer count of nanoseconds; `t.Before(u)` is `t < u`
    and `t.After(u)` is `u < t`, exactly as in Go.
  * Every call of `time.Now()` inside one operation is modelled by the single
    `now` argument of that operation.
-/

namespace JiraTui

/-- Lookup in a Go map modelled as an association list. -/
def mapLookup {α : Type} : List (String × α) → String → Option α
  | [], _ => none
  | (k', v) :: rest, k => if k' = k then some v else mapLookup rest k

/-- Go map assignment `m[k] = v`: replace the entry for `k` when present,
append a fresh entry otherwise. -/
def mapInsert {α : Type} : List (String × α) → String → α → List (String × α)
  | [], k, v => [(k, v)]
  | (k', v') :: rest, k, v =>
      if k' = k then (k, v) :: rest else (k', v') :: mapInsert rest k v

/-- `IssueState` from `pkg/state/state.go`: one issue's last-observed state.
`LastSeen` is a `time.Time`, modelled as nanoseconds. -/
structure IssueState where
  Key : String
  Status : String
  Assignee : String
  LastUpdate : String
  LastSeen : Int
deriving DecidableEq, Repr

/-- `BoardState` from `pkg/state/state.go`. -/
structure BoardState where
  BoardID : String
  Issues : List (String × IssueState)
deriving DecidableEq, Repr

/-- `AppState` from `pkg/state/state.go`. -/
structure AppState where
  Boards : List (String × BoardState)
  LastRun : Int
deriving DecidableEq, Repr

/-- `(*AppState).GetBoardState`: return the board, registering an empty
`BoardState` for an unknown board identifier.  Returns the board together
with the (possibly mutated) `AppState`. -/
def GetBoardState (s : AppState) (boardID : String) : BoardState × AppState :=
  match mapLookup s.Boards boardID with
  | some board => (board, s)
  | none =>
      let board : BoardState := { BoardID := boardID, Issues := [] }
      (board, { s with Boards := mapInsert s.Boards boardID board })

/-- `(*AppState).UpdateIssueState`: insert or replace the snapshot for
`issueKey`, recording `now` as `LastSeen`. -/
def UpdateIssueState (s : AppState) (boardID issueKey status assignee lastUpdate : String)
    (now : Int) : AppState :=
  let gb := GetBoardState s boardID
  let board := gb.1
  let board' := { board with
    Issues := mapInsert board.Issues issueKey
      { Key := issueKey, Status := status, Assignee := assignee,
        LastUpdate := lastUpdate, LastSeen := now } }
  { gb.2 with Boards := mapInsert gb.2.Boards boardID board' }

/-- `(*AppState).HasIssueChanged`: true when no snapshot exists for the key
or the stored status or assignee differs.  The call goes through
`GetBoardState`, so the returned `AppState` may have a fresh empty board
registered. -/
def HasIssueChanged (s : AppState) (boardID issueKey status assignee : String) :
    Bool × AppState :=
  let gb := GetBoardState s boardID
  match mapLookup gb.1.Issues issueKey with
  | some oldIssue => (oldIssue.Status != status || oldIssue.Assignee != assignee, gb.2)
  | none => (true, gb.2)

/-- The snapshot stored for key `k` on board `b`, if any. -/
def issueLookup (s : AppState) (b k : String) : Option IssueState :=
  match mapLookup s.Boards b with
  | some board => mapLookup board.Issues k
  | none => none

/-- The relevant input fields of a fetched `jira.Issue`:
`Key`, `Fields.Summary`, `Fields.Status.Name`, `Fields.Assignee`
(`none` when the JSON field is null) and `Fields.Updated`. -/
structure Issue where
  Key : String
  Summary : String
  Status : String
  Assignee : Option String
  Updated : String
deriving DecidableEq, Repr

/-- `ChangeNotification` from the TUI file.  `Timestamp` is a `time.Time`
in nanoseconds; `IsNew` is the "highlighted" flag. -/
structure ChangeNotification where
  BoardID : String
  IssueKey : String
  Summary : String
  Change : String
  Timestamp : Int
  IsNew : Bool
deriving DecidableEq, Repr

/-- The fields of `TUIApp` that `detectAndStoreChanges` reads and writes:
the snapshot store, the change queue and the rolling display list. -/
structure DetectState where
  appState : AppState
  changeQueue : List ChangeNotification
  changes : List String
deriving DecidableEq, Repr

def nsPerMinute : Int := 60000000000

/-- `2 * time.Hour` in nanoseconds. -/
def twoHoursNs : Int := 120 * nsPerMinute

/-- `24 * time.Hour` in nanoseconds. -/
def dayNs : Int := 1440 * nsPerMinute

/-- Assignee normalization at the top of the detection loop:
`"Unassigned"` when `issue.Fields.Assignee` is nil. -/
def normalizeAssignee (issue : Issue) : String :=
  match issue.Assignee with
  | some a => a
  | none => "Unassigned"

/-- One iteration of the loop body of `detectAndStoreChanges`: query
`HasIssueChanged`, emit a notification when the board already holds at
least one issue, then unconditionally `UpdateIssueState`. -/
def processIssue (now : Int) (boardID : String) (st : DetectState) (hasNew : Bool)
    (issue : Issue) : DetectState × Bool :=
  let assignee := normalizeAssignee issue
  let status := issue.Status
  let lastUpdate := issue.Updated
  let hc := HasIssueChanged st.appState boardID issue.Key status assignee
  let step :=
    if hc.1 then
      let gb := GetBoardState hc.2 boardID
      if 0 < gb.1.Issues.length then
        let change : ChangeNotification :=
          { BoardID := boardID, IssueKey := issue.Key, Summary := issue.Summary,
            Change := "Status: " ++ status ++ ", Assignee: " ++ assignee,
            Timestamp := now, IsNew := true }
        let changes1 := st.changes ++
          ["[" ++ boardID ++ "] " ++ issue.Key ++ ": Status changed to " ++ status]
        let changes2 := if 20 < changes1.length then changes1.drop 1 else changes1
        (({ appState := gb.2, changeQueue := st.changeQueue ++ [change],
            changes := changes2 } : DetectState), true)
      else
        (({ st with appState := gb.2 } : DetectState), hasNew)
    else
      (({ st with appState := hc.2 } : DetectState), hasNew)
  ({ step.1 with
      appState := UpdateIssueState step.1.appState boardID issue.Key status assignee
        lastUpdate now }, step.2)

/-- The `for _, issue := range issues` loop of `detectAndStoreChanges`. -/
def detectLoop (now : Int) (boardID : String) :
    List Issue → DetectState → Bool → DetectState × Bool
  | [], st, hasNew => (st, hasNew)
  | issue :: rest, st, hasNew =>
      let step := processIssue now boardID st hasNew issue
      detectLoop now boardID rest step.1 step.2

/-- The aging pass at the tail of `detectAndStoreChanges`: flip `IsNew` for
entries whose timestamp is strictly before `now − 2h`, then keep exactly the
entries whose timestamp is strictly after `now − 24h`. -/
def inlineSweep (now : Int) (q : List ChangeNotification) : List ChangeNotification :=
  let flipped := q.map fun c =>
    if c.Timestamp < now - twoHoursNs then { c with IsNew := false } else c
  flipped.filter fun c => decide (now - dayNs < c.Timestamp)

/-- `detectAndStoreChanges`: process every fetched issue, then run the
inline aging pass over the queue; returns the updated state and the
"has new changes" flag. -/
def detectAndStoreChanges (now : Int) (boardID : String) (issues : List Issue)
    (st : DetectState) : DetectState × Bool :=
  let looped := detectLoop now boardID issues st false
  ({ looped.1 with changeQueue := inlineSweep now looped.1.changeQueue }, looped.2)

/-- The flag-flip step of `cleanupChangeQueue`: demote an entry that is still
highlighted and strictly older than two hours. -/
def demote (now : Int) (c : ChangeNotification) : ChangeNotification :=
  if c.IsNew = true ∧ c.Timestamp < now - twoHoursNs then { c with IsNew := false } else c

/-- `cleanupChangeQueue` (the aging sweeper), restricted to its effect on the
queue: demote highlighted entries strictly older than two hours, then keep
exactly the entries whose timestamp is strictly after `now − 24h`. -/
def cleanupChangeQueue (now : Int) (q : List ChangeNotification) :
    List ChangeNotification :=
  (q.map (demote now)).filter fun c => decide (now - dayNs < c.Timestamp)

/-- The notification `processIssue` would append for `issue`. -/
def mkChange (now : Int) (boardID : String) (issue : Issue) : ChangeNotification :=
  { BoardID := boardID, IssueKey := issue.Key, Summary := issue.Summary,
    Change := "Status: " ++ issue.Status ++ ", Assignee: " ++ normalizeAssignee issue,
    Timestamp := now, IsNew := true }

/-- Number of queue entries for one (board, key) pair. -/
def countBK (b k : String) (q : List ChangeNotification) : Nat :=
  (q.filter fun c => c.BoardID == b && c.IssueKey == k).length

/-- The snapshot that `UpdateIssueState` writes for a fetched issue. -/
def storedIssue (now : Int) (issue : Issue) : IssueState :=
  { Key := issue.Key, Status := issue.Status, Assignee := normalizeAssignee issue,
    LastUpdate := issue.Updated, LastSeen := now }

/-- The implicit key-consistency invariant: every stored pair is keyed by the
identifier recorded inside it. -/
def KeyConsistent (s : AppState) : Prop :=
  ∀ p ∈ s.Boards, p.2.BoardID = p.1 ∧ ∀ q ∈ p.2.Issues, q.2.Key = q.1

/-- A JSON document, the output of `json.MarshalIndent` and input of
`json.Unmarshal`.  Timestamps are abstracted as integers. -/
inductive Json where
  | jnull : Json
  | jbool : Bool → Json
  | jnum : Int → Json
  | jstr : String → Json
  | jarr : List Json → Json
  | jobj : List (String × Json) → Json

/-- Reading a string-typed struct field the way `json.Unmarshal` does:
a missing or null field leaves the zero value, a wrong type is an error. -/
def getStrField (fs : List (String × Json)) (name : String) : Option String :=
  match mapLookup fs name with
  | none => some ""
  | some Json.jnull => some ""
  | some (Json.jstr s) => some s
  | some _ => none

/-- Reading an integer-typed field, with the same missing/null behavior. -/
def getNumField (fs : List (String × Json)) (name : String) : Option Int :=
  match mapLookup fs name with
  | none => some 0
  | some Json.jnull => some 0
  | some (Json.jnum n) => some n
  | some _ => none

def encodeIssueState (i : IssueState) : Json :=
  Json.jobj [("key", Json.jstr i.Key), ("status", Json.jstr i.Status),
    ("assignee", Json.jstr i.Assignee), ("lastUpdate", Json.jstr i.LastUpdate),
    ("lastSeen", Json.jnum i.LastSeen)]

def decodeIssueState (j : Json) : Option IssueState :=
  match j with
  | Json.jobj fs =>
      match getStrField fs "key", getStrField fs "status", getStrField fs "assignee",
          getStrField fs "lastUpdate", getNumField fs "lastSeen" with
      | some k, some st, some a, some lu, some ls =>
          some { Key := k, Status := st, Assignee := a, LastUpdate := lu, LastSeen := ls }
      | _, _, _, _, _ => none
  | Json.jnull =>
      some { Key := "", Status := "", Assignee := "", LastUpdate := "", LastSeen := 0 }
  | _ => none

def encodeIssueEntries (l : List (String × IssueState)) : List (String × Json) :=
  l.map fun p => (p.1, encodeIssueState p.2)

def decodeIssueEntries : List (String × Json) → Option (List (String × IssueState))
  | [] => some []
  | (k, j) :: rest =>
      match decodeIssueState j, decodeIssueEntries rest with
      | some i, some r => some ((k, i) :: r)
      | _, _ => none

def encodeBoardState (b : BoardState) : Json :=
  Json.jobj [("boardId", Json.jstr b.BoardID),
    ("issues", Json.jobj (encodeIssueEntries b.Issues))]

def decodeBoardState (j : Json) : Option BoardState :=
  match j with
  | Json.jobj fs =>
      match getStrField fs "boardId",
          (match mapLookup fs "issues" with
           | none => some []
           | some Json.jnull => some []
           | some (Json.jobj ifs) => decodeIssueEntries ifs
           | some _ => none) with
      | some bid, some issues => some { BoardID := bid, Issues := issues }
      | _, _ => none
  | Json.jnull => some { BoardID := "", Issues := [] }
  | _ => none

def encodeBoardEntries (l : List (String × BoardState)) : List (String × Json) :=
  l.map fun p => (p.1, encodeBoardState p.2)

def decodeBoardEntries : List (String × Json) → Option (List (String × BoardState))
  | [] => some []
  | (k, j) :: rest =>
      match decodeBoardState j, decodeBoardEntries rest with
      | some b, some r => some ((k, b) :: r)
      | _, _ => none

def encodeAppState (s : AppState) : Json :=
  Json.jobj [("boards", Json.jobj (encodeBoardEntries s.Boards)),
    ("lastRun", Json.jnum s.LastRun)]

def decodeAppState (j : Json) : Option AppState :=
  match j with
  | Json.jobj fs =>
      match (match mapLookup fs "boards" with
             | none => some []
             | some Json.jnull => some []
             | some (Json.jobj bfs) => decodeBoardEntries bfs
             | some _ => none),
          getNumField fs "lastRun" with
      | some boards, some lr => some { Boards := boards, LastRun := lr }
      | _, _ => none
  | _ => none

/-- `SaveState` stamps `LastRun` with the current time and marshals. -/
def SaveStateJson (s : AppState) (now : Int) : Json :=
  encodeAppState { s with LastRun := now }

/-- The empty state `LoadState` builds when the file does not exist, and
`NewTUIApp` builds when `LoadState` fails. -/
def emptyAppState (now : Int) : AppState :=
  { Boards := [], LastRun := now }

/-- What reading the state file can yield: the file is missing, opening or
reading fails, or bytes are obtained (which parse to a document or not). -/
inductive FileOutcome where
  | notExist : FileOutcome
  | openFailure : FileOutcome
  | readFailure : FileOutcome
  | bytes : Option Json → FileOutcome

/-- `LoadState`: a missing file yields the empty state; any other failure —
open error, read error, or `json.Unmarshal` rejecting the bytes — is an
error result. -/
def LoadState (now : Int) : FileOutcome → Except String AppState
  | FileOutcome.notExist => Except.ok (emptyAppState now)
  | FileOutcome.openFailure => Except.error "open"
  | FileOutcome.readFailure => Except.error "read"
  | FileOutcome.bytes none => Except.error "unmarshal"
  | FileOutcome.bytes (some j) =>
      match decodeAppState j with
      | some s => Except.ok s
      | none => Except.error "unmarshal"

/-- The state `NewTUIApp` starts with: the loaded state, or a fresh default
when `LoadState` returned an error. -/
def startupState (now : Int) (f : FileOutcome) : AppState :=
  match LoadState now f with
  | Except.ok s => s
  | Except.error _ => emptyAppState now

def emptyDetectState : DetectState :=
  { appState := { Boards := [], LastRun := 0 }, changeQueue := [], changes := [] }

def issueA : Issue :=
  { Key := "A", Summary := "sum A", Status := "Open", Assignee := some "Alice",
    Updated := "2024-01-01" }

def issueB : Issue :=
  { Key := "B", Summary := "sum B", Status := "Open", Assignee := some "Bob",
    Updated := "2024-01-02" }

def oneBoardState : AppState :=
  { Boards := [("b", { BoardID := "b", Issues := [] })], LastRun := 0 }

def cw1 : ChangeNotification :=
  { BoardID := "b", IssueKey := "k1", Summary := "s", Change := "d",
    Timestamp := -(119 * nsPerMinute), IsNew := true }

def cw2 : ChangeNotification :=
  { BoardID := "b", IssueKey := "k2", Summary := "s", Change := "d",
    Timestamp := -(121 * nsPerMinute), IsNew := true }

def cw3 : ChangeNotification :=
  { BoardID := "b", IssueKey := "k3", Summary := "s", Change := "d",
    Timestamp := -(1441 * nsPerMinute), IsNew := true }

def priorIssueX : IssueState :=
  { Key := "X", Status := "Done", Assignee := "Bob", LastUpdate := "u0", LastSeen := 0 }

def priorBoard : BoardState :=
  { BoardID := "b", Issues := [("X", priorIssueX)] }

def priorBoardState : DetectState :=
  { appState := { Boards := [("b", priorBoard)], LastRun := 0 },
    changeQueue := [], changes := [] }

def issueXopen : Issue :=
  { Key := "X", Summary := "s", Status := "Open", Assignee := some "Alice",
    Updated := "u1" }

def issueXclosed : Issue :=
  { Key := "X", Summary := "s", Status := "Closed", Assignee := some "Alice",
    Updated := "u2" }

def cw0 : ChangeNotification :=
  { BoardID := "b", IssueKey := "k", Summary := "s", Change := "d",
    Timestamp := 0, IsNew := true }

instance keyConsistentDecidable (s : AppState) : Decidable (KeyConsistent s) :=
  inferInstanceAs (Decidable (∀ p ∈ s.Boards, p.2.BoardID = p.1 ∧
    ∀ q ∈ p.2.Issues, q.2.Key = q.1))

theorem mapLookup_insert {α : Type} (m : List (String × α)) (k k' : String) (v : α) :
    mapLookup (mapInsert m k v) k' = if k = k' then some v else mapLookup m k' := by
  induction m with
  | nil => simp [mapInsert, mapLookup]
  | cons p rest ih =>
    obtain ⟨pk, pv⟩ := p
    by_cases h : pk = k
    · subst h
      simp only [mapInsert, if_pos rfl, mapLookup]
      by_cases h2 : pk = k' <;> simp [h2]
    · simp only [mapInsert, if_neg h, mapLookup]
      by_cases h2 : pk = k'
      · subst h2
        rw [if_pos rfl, if_pos rfl, if_neg (fun hkk => h hkk.symm)]
      · rw [if_neg h2, if_neg h2, ih]

theorem mapLookup_mem {α : Type} {m : List (String × α)} {k : String} {v : α}
    (h : mapLookup m k = some v) : (k, v) ∈ m := by
  induction m with
  | nil => simp [mapLookup] at h
  | cons p rest ih =>
    obtain ⟨pk, pv⟩ := p
    by_cases hk : pk = k
    · subst hk
      simp [mapLookup] at h
      simp [h]
    · simp [mapLookup, if_neg hk] at h
      exact List.mem_cons_of_mem _ (ih h)

theorem mem_mapInsert {α : Type} {m : List (String × α)} {k : String} {v : α} {p : String × α}
    (h : p ∈ mapInsert m k v) : p ∈ m ∨ p = (k, v) := by
  induction m with
  | nil => simp [mapInsert] at h; simp [h]
  | cons q rest ih =>
    obtain ⟨qk, qv⟩ := q
    by_cases hk : qk = k
    · subst hk
      simp [mapInsert] at h
      rcases h with h | h
      · right; simp [h]
      · left; exact List.mem_cons_of_mem _ h
    · simp only [mapInsert, if_neg hk] at h
      rcases List.mem_cons.mp h with h | h
      · left; simp [h]
      · rcases ih h with h | h
        · left; exact List.mem_cons_of_mem _ h
        · right; exact h

theorem getBoardState_fst (s : AppState) (b : String) :
    (GetBoardState s b).1 =
      (mapLookup s.Boards b).getD { BoardID := b, Issues := [] } := by
  unfold GetBoardState
  cases mapLookup s.Boards b <;> rfl

theorem mapLookup_getBoardState_self (s : AppState) (b : String) :
    mapLookup (GetBoardState s b).2.Boards b = some (GetBoardState s b).1 := by
  unfold GetBoardState
  cases h : mapLookup s.Boards b with
  | some board => simpa using h
  | none => simp [mapLookup_insert]

theorem mapLookup_getBoardState_other (s : AppState) (b b' : String) (hb : b ≠ b') :
    mapLookup (GetBoardState s b).2.Boards b' = mapLookup s.Boards b' := by
  unfold GetBoardState
  cases h : mapLookup s.Boards b with
  | some board => rfl
  | none => simp [mapLookup_insert, if_neg hb]

theorem issueLookup_getBoardState (s : AppState) (b b' k : String) :
    issueLookup (GetBoardState s b).2 b' k = issueLookup s b' k := by
  unfold issueLookup
  by_cases hb : b = b'
  · subst hb
    rw [mapLookup_getBoardState_self, getBoardState_fst]
    cases h : mapLookup s.Boards b with
    | some board => simp
    | none => simp [mapLookup]
  · rw [mapLookup_getBoardState_other s b b' hb]

theorem hasIssueChanged_snd (s : AppState) (b k status assignee : String) :
    (HasIssueChanged s b k status assignee).2 = (GetBoardState s b).2 := by
  simp only [HasIssueChanged]
  cases mapLookup (GetBoardState s b).1.Issues k <;> rfl

theorem issueLookup_hasIssueChanged (s : AppState) (b k status assignee b' k' : String) :
    issueLookup (HasIssueChanged s b k status assignee).2 b' k' = issueLookup s b' k' := by
  rw [hasIssueChanged_snd, issueLookup_getBoardState]

theorem hasIssueChanged_fst (s : AppState) (b k status assignee : String) :
    (HasIssueChanged s b k status assignee).1 =
      (match issueLookup s b k with
       | some old => old.Status != status || old.Assignee != assignee
       | none => true) := by
  simp only [HasIssueChanged, issueLookup, getBoardState_fst]
  cases h : mapLookup s.Boards b with
  | some board =>
    simp only [Option.getD]
    cases mapLookup board.Issues k <;> rfl
  | none => simp [mapLookup]

theorem issueLookup_update (s : AppState) (b k status assignee lastUpdate : String)
    (now : Int) (b' k' : String) :
    issueLookup (UpdateIssueState s b k status assignee lastUpdate now) b' k' =
      if b = b' ∧ k = k' then
        some { Key := k, Status := status, Assignee := assignee,
               LastUpdate := lastUpdate, LastSeen := now }
      else issueLookup s b' k' := by
  simp only [UpdateIssueState, issueLookup]
  by_cases hb : b = b'
  · subst hb
    rw [mapLookup_insert, if_pos rfl]
    simp only [eq_self_iff_true, true_and, mapLookup_insert]
    by_cases hk : k = k'
    · simp [hk]
    · simp only [if_neg hk]
      rw [getBoardState_fst]
      cases h : mapLookup s.Boards b with
      | some board => simp
      | none => simp [mapLookup]
  · rw [mapLookup_insert, if_neg hb, if_neg (fun hc => hb hc.1),
      mapLookup_getBoardState_other s b b' hb]

theorem hasIssueChanged_false_iff (s : AppState) (b k status assignee : String) :
    (HasIssueChanged s b k status assignee).1 = false ↔
      ∃ old, issueLookup s b k = some old ∧ old.Status = status ∧ old.Assignee = assignee := by
  rw [hasIssueChanged_fst]
  cases h : issueLookup s b k with
  | some old =>
    simp only [Bool.or_eq_false_iff, bne_eq_false_iff_eq]
    constructor
    · rintro ⟨h1, h2⟩
      exact ⟨old, rfl, h1, h2⟩
    · rintro ⟨old', hold', h1, h2⟩
      cases hold'
      exact ⟨h1, h2⟩
  | none => simp

theorem processIssue_appState (now : Int) (boardID : String) (st : DetectState)
    (hasNew : Bool) (issue : Issue) (b' k' : String) :
    issueLookup (processIssue now boardID st hasNew issue).1.appState b' k' =
      if boardID = b' ∧ issue.Key = k' then
        some { Key := issue.Key, Status := issue.Status,
               Assignee := normalizeAssignee issue, LastUpdate := issue.Updated,
               LastSeen := now }
      else issueLookup st.appState b' k' := by
  simp only [processIssue]
  split
  · split
    · simp only [issueLookup_update, issueLookup_getBoardState, issueLookup_hasIssueChanged]
    · simp only [issueLookup_update, issueLookup_getBoardState, issueLookup_hasIssueChanged]
  · simp only [issueLookup_update, issueLookup_hasIssueChanged]

theorem processIssue_queue (now : Int) (boardID : String) (st : DetectState)
    (hasNew : Bool) (issue : Issue) :
    (processIssue now boardID st hasNew issue).1.changeQueue = st.changeQueue ∨
    (processIssue now boardID st hasNew issue).1.changeQueue
      = st.changeQueue ++ [mkChange now boardID issue] := by
  simp only [processIssue, mkChange]
  split
  · split
    · right; rfl
    · left; rfl
  · left; rfl

theorem processIssue_nochange (now : Int) (boardID : String) (st : DetectState)
    (hasNew : Bool) (issue : Issue)
    (h : (HasIssueChanged st.appState boardID issue.Key issue.Status
        (normalizeAssignee issue)).1 = false) :
    (processIssue now boardID st hasNew issue).1.changeQueue = st.changeQueue ∧
    (processIssue now boardID st hasNew issue).1.changes = st.changes ∧
    (processIssue now boardID st hasNew issue).2 = hasNew := by
  simp only [processIssue, h]
  simp

theorem detectLoop_appState_frame (now : Int) (boardID : String) (issues : List Issue)
    (st : DetectState) (hasNew : Bool) (b' k' : String)
    (h : ∀ i ∈ issues, ¬(boardID = b' ∧ i.Key = k')) :
    issueLookup (detectLoop now boardID issues st hasNew).1.appState b' k'
      = issueLookup st.appState b' k' := by
  induction issues generalizing st hasNew with
  | nil => rfl
  | cons issue rest ih =>
    simp only [detectLoop]
    rw [ih _ _ (fun i hi => h i (List.mem_cons_of_mem _ hi)),
      processIssue_appState, if_neg (h issue (List.mem_cons_self _ _))]

theorem detectLoop_nochange (now : Int) (boardID : String) (issues : List Issue)
    (st : DetectState) (hasNew : Bool)
    (h : ∀ i ∈ issues, ∃ old, issueLookup st.appState boardID i.Key = some old ∧
        old.Status = i.Status ∧ old.Assignee = normalizeAssignee i) :
    (detectLoop now boardID issues st hasNew).1.changeQueue = st.changeQueue ∧
    (detectLoop now boardID issues st hasNew).1.changes = st.changes ∧
    (detectLoop now boardID issues st hasNew).2 = hasNew := by
  induction issues generalizing st hasNew with
  | nil => exact ⟨rfl, rfl, rfl⟩
  | cons issue rest ih =>
    have hchg : (HasIssueChanged st.appState boardID issue.Key issue.Status
        (normalizeAssignee issue)).1 = false :=
      (hasIssueChanged_false_iff _ _ _ _ _).mpr (h issue (List.mem_cons_self _ _))
    have hstep := processIssue_nochange now boardID st hasNew issue hchg
    simp only [detectLoop]
    have hnext : ∀ i ∈ rest,
        ∃ old, issueLookup (processIssue now boardID st hasNew issue).1.appState
            boardID i.Key = some old ∧
          old.Status = i.Status ∧ old.Assignee = normalizeAssignee i := by
      intro i hi
      rw [processIssue_appState]
      by_cases hk : boardID = boardID ∧ issue.Key = i.Key
      · obtain ⟨old, hold, hst, has⟩ := h issue (List.mem_cons_self _ _)
        obtain ⟨oldi, holdi, hsti, hasi⟩ := h i (List.mem_cons_of_mem _ hi)
        rw [if_pos hk]
        rw [hk.2] at hold
        rw [hold] at holdi
        injection holdi with he
        subst he
        refine ⟨_, rfl, ?_, ?_⟩
        · show issue.Status = i.Status
          rw [← hst]; exact hsti
        · show normalizeAssignee issue = normalizeAssignee i
          rw [← has]; exact hasi
      · rw [if_neg hk]
        exact h i (List.mem_cons_of_mem _ hi)
    obtain ⟨hq, hc, hb⟩ := ih _ _ hnext
    rw [hq, hc, hb, hstep.1, hstep.2.1, hstep.2.2]
    exact ⟨rfl, rfl, rfl⟩

theorem detectLoop_stores (now : Int) (boardID : String) (issues : List Issue)
    (st : DetectState) (hasNew : Bool)
    (hag : ∀ i ∈ issues, ∀ j ∈ issues, i.Key = j.Key →
      i.Status = j.Status ∧ normalizeAssignee i = normalizeAssignee j) :
    ∀ i ∈ issues, ∃ old,
      issueLookup (detectLoop now boardID issues st hasNew).1.appState boardID i.Key
        = some old ∧ old.Status = i.Status ∧ old.Assignee = normalizeAssignee i := by
  induction issues generalizing st hasNew with
  | nil => intro i hi; cases hi
  | cons issue rest ih =>
    intro i hi
    have hagrest : ∀ i ∈ rest, ∀ j ∈ rest, i.Key = j.Key →
        i.Status = j.Status ∧ normalizeAssignee i = normalizeAssignee j :=
      fun a ha b hb => hag a (List.mem_cons_of_mem _ ha) b (List.mem_cons_of_mem _ hb)
    rcases List.mem_cons.mp hi with hi | hi
    · subst hi
      by_cases hocc : ∃ j ∈ rest, j.Key = i.Key
      · obtain ⟨j, hj, hjk⟩ := hocc
        obtain ⟨old, hold, hst, has⟩ :=
          ih (processIssue now boardID st hasNew i).1
            (processIssue now boardID st hasNew i).2 hagrest j hj
        have hagj := hag i (List.mem_cons_self _ _) j (List.mem_cons_of_mem _ hj) hjk.symm
        refine ⟨old, ?_, ?_, ?_⟩
        · simpa only [detectLoop, hjk] using hold
        · rw [hst, ← hagj.1]
        · rw [has, ← hagj.2]
      · push_neg at hocc
        have hlook : issueLookup
            (detectLoop now boardID (i :: rest) st hasNew).1.appState boardID i.Key
            = some { Key := i.Key, Status := i.Status,
                     Assignee := normalizeAssignee i, LastUpdate := i.Updated,
                     LastSeen := now } := by
          simp only [detectLoop]
          rw [detectLoop_appState_frame now boardID rest _ _ boardID i.Key
              (fun j hj hc => hocc j hj (by rw [hc.2]))]
          rw [processIssue_appState, if_pos ⟨rfl, rfl⟩]
        exact ⟨_, hlook, rfl, rfl⟩
    · simp only [detectLoop]
      exact ih _ _ hagrest i hi

theorem countBK_append_other (b k : String) (q : List ChangeNotification)
    (c : ChangeNotification) (h : c.IssueKey ≠ k) :
    countBK b k (q ++ [c]) = countBK b k q := by
  unfold countBK
  rw [List.filter_append]
  have hf : (c.BoardID == b && c.IssueKey == k) = false := by
    simp [h]
  simp [List.filter, hf]

theorem countBK_append_le (b k : String) (q : List ChangeNotification)
    (c : ChangeNotification) :
    countBK b k (q ++ [c]) ≤ countBK b k q + 1 := by
  unfold countBK
  rw [List.filter_append, List.length_append]
  have : (List.filter (fun c => c.BoardID == b && c.IssueKey == k) [c]).length ≤ 1 := by
    simp only [List.filter]
    split <;> simp
  omega

theorem countBK_inlineSweep_le (now : Int) (b k : String) (q : List ChangeNotification) :
    countBK b k (inlineSweep now q) ≤ countBK b k q := by
  unfold countBK inlineSweep
  have hsub : (List.filter (fun c => decide (now - dayNs < c.Timestamp))
        (q.map fun c => if c.Timestamp < now - twoHoursNs then { c with IsNew := false } else c)).Sublist
      (q.map fun c => if c.Timestamp < now - twoHoursNs then { c with IsNew := false } else c) :=
    List.filter_sublist _
  calc (List.filter (fun c => c.BoardID == b && c.IssueKey == k) _).length
      ≤ (List.filter (fun c => c.BoardID == b && c.IssueKey == k)
          (q.map fun c => if c.Timestamp < now - twoHoursNs then { c with IsNew := false } else c)).length :=
        (hsub.filter _).length_le
    _ = (q.filter fun c => c.BoardID == b && c.IssueKey == k).length := by
        rw [List.filter_map]
        rw [List.length_map]
        congr 1
        apply List.filter_congr
        intro c _
        show ((if c.Timestamp < now - twoHoursNs then { c with IsNew := false } else c).BoardID == b
          && (if c.Timestamp < now - twoHoursNs then { c with IsNew := false } else c).IssueKey == k)
          = (c.BoardID == b && c.IssueKey == k)
        split <;> rfl

theorem processIssue_queue_key (now : Int) (boardID : String) (st : DetectState)
    (hasNew : Bool) (issue : Issue) (b k : String) (hk : issue.Key ≠ k) :
    countBK b k (processIssue now boardID st hasNew issue).1.changeQueue
      = countBK b k st.changeQueue := by
  rcases processIssue_queue now boardID st hasNew issue with h | h
  · rw [h]
  · rw [h, countBK_append_other]
    exact hk

theorem detectLoop_count_frozen (now : Int) (boardID k : String) (issues : List Issue)
    (st : DetectState) (hasNew : Bool)
    (hold : ∃ old, issueLookup st.appState boardID k = some old ∧
      ∀ i ∈ issues, i.Key = k → old.Status = i.Status ∧ old.Assignee = normalizeAssignee i) :
    countBK boardID k (detectLoop now boardID issues st hasNew).1.changeQueue
      = countBK boardID k st.changeQueue := by
  induction issues generalizing st hasNew with
  | nil => rfl
  | cons issue rest ih =>
    obtain ⟨old, holdl, hmatch⟩ := hold
    simp only [detectLoop]
    by_cases hk : issue.Key = k
    · have hij := hmatch issue (List.mem_cons_self _ _) hk
      have hchg : (HasIssueChanged st.appState boardID issue.Key issue.Status
          (normalizeAssignee issue)).1 = false := by
        rw [hasIssueChanged_false_iff]
        exact ⟨old, by rw [hk]; exact holdl, hij.1, hij.2⟩
      have hstep := processIssue_nochange now boardID st hasNew issue hchg
      have hnext : ∃ old2, issueLookup (processIssue now boardID st hasNew issue).1.appState
          boardID k = some old2 ∧
          ∀ i ∈ rest, i.Key = k → old2.Status = i.Status ∧ old2.Assignee = normalizeAssignee i := by
        have hlook : issueLookup (processIssue now boardID st hasNew issue).1.appState
            boardID k = some (storedIssue now issue) := by
          rw [processIssue_appState, if_pos ⟨rfl, hk⟩]
          rfl
        refine ⟨_, hlook, fun i hi hik => ?_⟩
        have hi2 := hmatch i (List.mem_cons_of_mem _ hi) hik
        constructor
        · show issue.Status = i.Status
          rw [← hij.1]; exact hi2.1
        · show normalizeAssignee issue = normalizeAssignee i
          rw [← hij.2]; exact hi2.2
      rw [ih _ _ hnext, hstep.1]
    · have hnext : ∃ old2, issueLookup (processIssue now boardID st hasNew issue).1.appState
          boardID k = some old2 ∧
          ∀ i ∈ rest, i.Key = k → old2.Status = i.Status ∧ old2.Assignee = normalizeAssignee i := by
        refine ⟨old, ?_, fun i hi hik => hmatch i (List.mem_cons_of_mem _ hi) hik⟩
        rw [processIssue_appState, if_neg (fun hc => hk hc.2)]
        exact holdl
      rw [ih _ _ hnext, processIssue_queue_key now boardID st hasNew issue boardID k hk]

theorem detectLoop_count_le (now : Int) (boardID k : String) (issues : List Issue)
    (st : DetectState) (hasNew : Bool)
    (hag : ∀ i ∈ issues, ∀ j ∈ issues, i.Key = k → j.Key = k →
      i.Status = j.Status ∧ normalizeAssignee i = normalizeAssignee j) :
    countBK boardID k (detectLoop now boardID issues st hasNew).1.changeQueue
      ≤ countBK boardID k st.changeQueue + 1 := by
  induction issues generalizing st hasNew with
  | nil => exact Nat.le_succ_of_le (Nat.le_refl _)
  | cons issue rest ih =>
    simp only [detectLoop]
    by_cases hk : issue.Key = k
    · have hnext : ∃ old2, issueLookup (processIssue now boardID st hasNew issue).1.appState
          boardID k = some old2 ∧
          ∀ i ∈ rest, i.Key = k → old2.Status = i.Status ∧ old2.Assignee = normalizeAssignee i := by
        have hlook : issueLookup (processIssue now boardID st hasNew issue).1.appState
            boardID k = some (storedIssue now issue) := by
          rw [processIssue_appState, if_pos ⟨rfl, hk⟩]
          rfl
        refine ⟨_, hlook, fun i hi hik => ?_⟩
        exact hag issue (List.mem_cons_self _ _) i (List.mem_cons_of_mem _ hi) hk hik
      rw [detectLoop_count_frozen now boardID k rest _ _ hnext]
      rcases processIssue_queue now boardID st hasNew issue with h | h
      · rw [h]; exact Nat.le_succ_of_le (Nat.le_refl _)
      · rw [h]; exact countBK_append_le _ _ _ _
    · have hstep := processIssue_queue_key now boardID st hasNew issue boardID k hk
      calc countBK boardID k (detectLoop now boardID rest
            (processIssue now boardID st hasNew issue).1
            (processIssue now boardID st hasNew issue).2).1.changeQueue
          ≤ countBK boardID k (processIssue now boardID st hasNew issue).1.changeQueue + 1 :=
            ih _ _ (fun a ha b hb => hag a (List.mem_cons_of_mem _ ha)
              b (List.mem_cons_of_mem _ hb))
        _ = countBK boardID k st.changeQueue + 1 := by rw [hstep]

theorem demote_idem (now : Int) (c : ChangeNotification) :
    demote now (demote now c) = demote now c := by
  unfold demote
  by_cases h : c.IsNew = true ∧ c.Timestamp < now - twoHoursNs
  · rw [if_pos h]
    rw [if_neg]
    intro hc
    exact Bool.false_ne_true hc.1
  · rw [if_neg h, if_neg h]

theorem demote_timestamp (now : Int) (c : ChangeNotification) :
    (demote now c).Timestamp = c.Timestamp := by
  unfold demote
  split <;> rfl

theorem keyConsistent_getBoardState (s : AppState) (b : String)
    (h : KeyConsistent s) : KeyConsistent (GetBoardState s b).2 := by
  unfold GetBoardState
  cases hl : mapLookup s.Boards b with
  | some board => exact h
  | none =>
    intro p hp
    rcases mem_mapInsert hp with hp | hp
    · exact h p hp
    · subst hp
      exact ⟨rfl, fun q hq => absurd hq (List.not_mem_nil _)⟩

theorem keyConsistent_getBoardState_fst (s : AppState) (b : String)
    (h : KeyConsistent s) :
    (GetBoardState s b).1.BoardID = b ∧ ∀ q ∈ (GetBoardState s b).1.Issues, q.2.Key = q.1 := by
  unfold GetBoardState
  cases hl : mapLookup s.Boards b with
  | some board =>
    have := h _ (mapLookup_mem hl)
    exact ⟨this.1, this.2⟩
  | none => exact ⟨rfl, fun q hq => absurd hq (List.not_mem_nil _)⟩

theorem keyConsistent_update (s : AppState) (b k status assignee lastUpdate : String)
    (now : Int) (h : KeyConsistent s) :
    KeyConsistent (UpdateIssueState s b k status assignee lastUpdate now) := by
  have hget := keyConsistent_getBoardState s b h
  have hfst := keyConsistent_getBoardState_fst s b h
  simp only [UpdateIssueState]
  intro p hp
  rcases mem_mapInsert hp with hp | hp
  · exact hget p hp
  · subst hp
    refine ⟨hfst.1, ?_⟩
    intro q hq
    rcases mem_mapInsert hq with hq | hq
    · exact hfst.2 q hq
    · subst hq
      rfl

theorem keyConsistent_hasIssueChanged (s : AppState) (b k status assignee : String)
    (h : KeyConsistent s) : KeyConsistent (HasIssueChanged s b k status assignee).2 := by
  rw [hasIssueChanged_snd]
  exact keyConsistent_getBoardState s b h

theorem decode_encode_issueState (i : IssueState) :
    decodeIssueState (encodeIssueState i) = some i := by
  cases i
  rfl

theorem decode_encode_issueEntries (l : List (String × IssueState)) :
    decodeIssueEntries (encodeIssueEntries l) = some l := by
  induction l with
  | nil => rfl
  | cons p rest ih =>
    obtain ⟨k, i⟩ := p
    show decodeIssueEntries ((k, encodeIssueState i) :: encodeIssueEntries rest) = _
    simp only [decodeIssueEntries, decode_encode_issueState, ih]

theorem decode_encode_boardState (b : BoardState) :
    decodeBoardState (encodeBoardState b) = some b := by
  obtain ⟨bid, issues⟩ := b
  show decodeBoardState (Json.jobj [("boardId", Json.jstr bid),
    ("issues", Json.jobj (encodeIssueEntries issues))]) = _
  have h1 : getStrField [("boardId", Json.jstr bid),
      ("issues", Json.jobj (encodeIssueEntries issues))] "boardId" = some bid := rfl
  have h2 : mapLookup [("boardId", Json.jstr bid),
      ("issues", Json.jobj (encodeIssueEntries issues))] "issues"
      = some (Json.jobj (encodeIssueEntries issues)) := rfl
  simp only [decodeBoardState, h1, h2, decode_encode_issueEntries]

theorem decode_encode_boardEntries (l : List (String × BoardState)) :
    decodeBoardEntries (encodeBoardEntries l) = some l := by
  induction l with
  | nil => rfl
  | cons p rest ih =>
    obtain ⟨k, b⟩ := p
    show decodeBoardEntries ((k, encodeBoardState b) :: encodeBoardEntries rest) = _
    simp only [decodeBoardEntries, decode_encode_boardState, ih]

theorem decode_encode_appState (s : AppState) :
    decodeAppState (encodeAppState s) = some s := by
  obtain ⟨boards, lastRun⟩ := s
  show decodeAppState (Json.jobj [("boards", Json.jobj (encodeBoardEntries boards)),
    ("lastRun", Json.jnum lastRun)]) = _
  have h1 : mapLookup [("boards", Json.jobj (encodeBoardEntries boards)),
      ("lastRun", Json.jnum lastRun)] "boards"
      = some (Json.jobj (encodeBoardEntries boards)) := rfl
  have h2 : getNumField [("boards", Json.jobj (encodeBoardEntries boards)),
      ("lastRun", Json.jnum lastRun)] "lastRun" = some lastRun := rfl
  simp only [decodeAppState, h1, h2, decode_encode_boardEntries]

theorem cleanup_24h_bound (now : Int) (q : List ChangeNotification) :
    ∀ c ∈ cleanupChangeQueue now q, now - c.Timestamp < dayNs := by
  intro c hc
  have := List.of_mem_filter hc
  rw [decide_eq_true_iff] at this
  omega

/-- C1: the claim says a board's first-ever poll (empty prior snapshot store)
produces zero ChangeNotifications for every non-empty fetched list.  The code
checks `0 < board.Issues.length` per issue, after earlier issues of the same
batch were already stored, so a first poll with two distinct new issues emits
one notification (for the second issue) while the store is fully populated. -/
theorem claim1_first_poll_two_new_issues_emits :
    (detectAndStoreChanges 0 "BOARD" [issueA, issueB] emptyDetectState).1.changeQueue.length = 1 ∧
    (issueLookup (detectAndStoreChanges 0 "BOARD" [issueA, issueB]
      emptyDetectState).1.appState "BOARD" "A").isSome = true ∧
    (issueLookup (detectAndStoreChanges 0 "BOARD" [issueA, issueB]
      emptyDetectState).1.appState "BOARD" "B").isSome = true := by
  decide

/-- C2 counterexample: `HasIssueChanged` on a board identifier with no
registered BoardState mutates the AppState (it registers an empty board via
`GetBoardState`), so it is not mutation-free on every AppState. -/
theorem claim2_hasIssueChanged_mutates_unknown_board :
    (HasIssueChanged { Boards := [], LastRun := 0 } "b" "k" "s" "a").2
      ≠ ({ Boards := [], LastRun := 0 } : AppState) := by
  decide

/-- C2 (amended): when the board already has a registered BoardState,
`HasIssueChanged` leaves the AppState unchanged, and its boolean result is
true iff no snapshot exists for the key or the stored status or assignee
differs from the given one. -/
theorem claim2_hasIssueChanged_amended (s : AppState) (b k status assignee : String)
    (h : (mapLookup s.Boards b).isSome = true) :
    (HasIssueChanged s b k status assignee).2 = s ∧
    ((HasIssueChanged s b k status assignee).1 = true ↔
      issueLookup s b k = none ∨
      ∃ old, issueLookup s b k = some old ∧
        (old.Status ≠ status ∨ old.Assignee ≠ assignee)) := by
  constructor
  · rw [hasIssueChanged_snd]
    unfold GetBoardState
    obtain ⟨board, hb⟩ := Option.isSome_iff_exists.mp h
    rw [hb]
  · rw [hasIssueChanged_fst]
    cases hl : issueLookup s b k with
    | some old =>
      simp only [Bool.or_eq_true, bne_iff_ne]
      constructor
      · intro hne
        exact Or.inr ⟨old, rfl, hne⟩
      · rintro (hc | ⟨old', hold', hne⟩)
        · cases hc
        · cases hold'
          exact hne
    | none => simp

/-- Witness for C2 at a state that already holds board "b". -/
theorem claim2_hasIssueChanged_amended_witness :
    (HasIssueChanged oneBoardState "b" "k" "s" "a").2 = oneBoardState ∧
    ((HasIssueChanged oneBoardState "b" "k" "s" "a").1 = true ↔
      issueLookup oneBoardState "b" "k" = none ∨
      ∃ old, issueLookup oneBoardState "b" "k" = some old ∧
        (old.Status ≠ "s" ∨ old.Assignee ≠ "a")) :=
  claim2_hasIssueChanged_amended oneBoardState "b" "k" "s" "a" (by decide)

/-- C3 counterexample: an entry whose age is exactly two hours keeps
`IsNew = true` after a sweep — the code flips only entries strictly older
than two hours (`Timestamp.Before(cutoff)`), so the Historical transition
does not fire at `now - detectionTime = 2h`, refuting the claimed `≥ 2h`. -/
theorem claim3_exact_two_hours_still_highlighted :
    cleanupChangeQueue (120 * nsPerMinute)
      [{ BoardID := "b", IssueKey := "k", Summary := "s", Change := "d",
         Timestamp := 0, IsNew := true }]
      = [{ BoardID := "b", IssueKey := "k", Summary := "s", Change := "d",
           Timestamp := 0, IsNew := true }] := by
  decide

/-- C3 (amended): after one sweep at `now`, an entry aged 1h59m is kept
unchanged (still highlighted), an entry aged 2h01m is kept with
`highlighted = false`, and an entry aged 24h01m is removed; the Historical
transition fires whenever `now - detectionTime` strictly exceeds 2h (at
exactly 2h the entry stays highlighted until the next instant), and every
entry whose age has reached 24h is removed. -/
theorem claim3_aging_amended (now : Int) (c1 c2 c3 : ChangeNotification)
    (q : List ChangeNotification)
    (h1 : now - c1.Timestamp = 119 * nsPerMinute)
    (h2 : now - c2.Timestamp = 121 * nsPerMinute)
    (h3 : now - c3.Timestamp = 1441 * nsPerMinute) :
    cleanupChangeQueue now [c1, c2, c3] = [c1, { c2 with IsNew := false }] ∧
    (∀ c ∈ cleanupChangeQueue now q, twoHoursNs < now - c.Timestamp → c.IsNew = false) ∧
    (∀ c ∈ cleanupChangeQueue now q, now - c.Timestamp < dayNs) := by
  refine ⟨?_, ?_, cleanup_24h_bound now q⟩
  · have hd1 : demote now c1 = c1 := by
      unfold demote
      rw [if_neg]
      intro hc
      have := hc.2
      rw [twoHoursNs, nsPerMinute] at this
      rw [nsPerMinute] at h1
      omega
    have hd2 : demote now c2 = { c2 with IsNew := false } := by
      unfold demote
      by_cases hb : c2.IsNew = true
      · rw [if_pos]
        refine ⟨hb, ?_⟩
        rw [twoHoursNs, nsPerMinute]
        rw [nsPerMinute] at h2
        omega
      · rw [if_neg (fun hc => hb hc.1)]
        cases c2 with
        | mk b k s ch t n =>
          simp only [Bool.not_eq_true] at hb
          simp [hb]
    have hd3 : demote now c3 = { c3 with IsNew := false } := by
      unfold demote
      by_cases hb : c3.IsNew = true
      · rw [if_pos]
        refine ⟨hb, ?_⟩
        rw [twoHoursNs, nsPerMinute]
        rw [nsPerMinute] at h3
        omega
      · rw [if_neg (fun hc => hb hc.1)]
        cases c3 with
        | mk b k s ch t n =>
          simp only [Bool.not_eq_true] at hb
          simp [hb]
    unfold cleanupChangeQueue
    rw [List.map_cons, List.map_cons, List.map_cons, List.map_nil, hd1, hd2, hd3]
    have hk1 : decide (now - dayNs < c1.Timestamp) = true := by
      rw [decide_eq_true_iff, dayNs, nsPerMinute]
      rw [nsPerMinute] at h1
      omega
    have hk2 : decide (now - dayNs < ({ c2 with IsNew := false } : ChangeNotification).Timestamp) = true := by
      show decide (now - dayNs < c2.Timestamp) = true
      rw [decide_eq_true_iff, dayNs, nsPerMinute]
      rw [nsPerMinute] at h2
      omega
    have hk3 : decide (now - dayNs < ({ c3 with IsNew := false } : ChangeNotification).Timestamp) = false := by
      show decide (now - dayNs < c3.Timestamp) = false
      rw [decide_eq_false_iff_not, dayNs, nsPerMinute]
      rw [nsPerMinute] at h3
      omega
    rw [List.filter_cons, hk1, List.filter_cons, hk2, List.filter_cons, hk3, List.filter_nil]
    simp
  · intro c hc hold
    obtain ⟨c0, _, hc0⟩ := List.mem_map.mp (List.mem_of_mem_filter hc)
    subst hc0
    rw [demote_timestamp] at hold
    unfold demote
    by_cases hb : c0.IsNew = true ∧ c0.Timestamp < now - twoHoursNs
    · rw [if_pos hb]
    · rw [if_neg hb]
      rcases Bool.eq_false_or_eq_true c0.IsNew with h | h
      · exact absurd ⟨h, by omega⟩ hb
      · exact h

/-- Witness for C3 at concrete ages 1h59m, 2h01m and 24h01m. -/
theorem claim3_aging_amended_witness :
    cleanupChangeQueue 0 [cw1, cw2, cw3] = [cw1, { cw2 with IsNew := false }] ∧
    (∀ c ∈ cleanupChangeQueue 0 ([] : List ChangeNotification),
      twoHoursNs < 0 - c.Timestamp → c.IsNew = false) ∧
    (∀ c ∈ cleanupChangeQueue 0 ([] : List ChangeNotification),
      0 - c.Timestamp < dayNs) :=
  claim3_aging_amended 0 cw1 cw2 cw3 [] (by decide) (by decide) (by decide)

/-- C4 counterexample: when the fetched list holds the same key twice with
different statuses (possible when several active iterations are concatenated),
a byte-identical second pass appends two further notifications and reports
new changes, refuting idempotence for every issue list. -/
theorem claim4_conflicting_duplicates_not_idempotent :
    (detectAndStoreChanges 0 "b" [issueXopen, issueXclosed] priorBoardState).1.changeQueue.length = 2 ∧
    (detectAndStoreChanges 0 "b" [issueXopen, issueXclosed]
      (detectAndStoreChanges 0 "b" [issueXopen, issueXclosed]
        priorBoardState).1).1.changeQueue.length = 4 ∧
    (detectAndStoreChanges 0 "b" [issueXopen, issueXclosed]
      (detectAndStoreChanges 0 "b" [issueXopen, issueXclosed]
        priorBoardState).1).2 = true := by
  decide

/-- C4 (amended): for every fetched issue list in which any two occurrences
of the same key agree on status and (normalized) assignee — in particular any
list without duplicate keys — running the change-detection pass twice with
the identical list appends nothing on the second pass (the second queue is
exactly the aging pass applied to the first queue) and the second pass
reports no new changes. -/
theorem claim4_idempotent_amended (now now2 : Int) (boardID : String) (issues : List Issue)
    (st : DetectState)
    (hag : ∀ i ∈ issues, ∀ j ∈ issues, i.Key = j.Key →
      i.Status = j.Status ∧ normalizeAssignee i = normalizeAssignee j) :
    (detectAndStoreChanges now2 boardID issues
        (detectAndStoreChanges now boardID issues st).1).1.changeQueue
      = inlineSweep now2 (detectAndStoreChanges now boardID issues st).1.changeQueue ∧
    (detectAndStoreChanges now2 boardID issues
        (detectAndStoreChanges now boardID issues st).1).2 = false := by
  have happ : (detectAndStoreChanges now boardID issues st).1.appState
      = (detectLoop now boardID issues st false).1.appState := rfl
  have h2 : ∀ i ∈ issues, ∃ old,
      issueLookup (detectAndStoreChanges now boardID issues st).1.appState boardID i.Key
        = some old ∧ old.Status = i.Status ∧ old.Assignee = normalizeAssignee i := by
    rw [happ]
    exact detectLoop_stores now boardID issues st false hag
  have hno := detectLoop_nochange now2 boardID issues
    (detectAndStoreChanges now boardID issues st).1 false h2
  constructor
  · show inlineSweep now2 (detectLoop now2 boardID issues
      (detectAndStoreChanges now boardID issues st).1 false).1.changeQueue = _
    rw [hno.1]
  · exact hno.2.2

/-- Witness for C4 on a duplicate-free two-issue list. -/
theorem claim4_idempotent_amended_witness :
    (detectAndStoreChanges 5 "b" [issueA, issueB]
        (detectAndStoreChanges 3 "b" [issueA, issueB] priorBoardState).1).1.changeQueue
      = inlineSweep 5 (detectAndStoreChanges 3 "b" [issueA, issueB]
          priorBoardState).1.changeQueue ∧
    (detectAndStoreChanges 5 "b" [issueA, issueB]
        (detectAndStoreChanges 3 "b" [issueA, issueB] priorBoardState).1).2 = false :=
  claim4_idempotent_amended 3 5 "b" [issueA, issueB] priorBoardState (by decide)

/-- C5: the aging sweep is idempotent — for every queue and every fixed
current time, sweeping twice in immediate succession yields the same queue
as sweeping once. -/
theorem claim5_sweep_idempotent (now : Int) (q : List ChangeNotification) :
    cleanupChangeQueue now (cleanupChangeQueue now q) = cleanupChangeQueue now q := by
  unfold cleanupChangeQueue
  have h1 : List.map (demote now)
      (List.filter (fun c => decide (now - dayNs < c.Timestamp)) (q.map (demote now)))
      = List.filter (fun c => decide (now - dayNs < c.Timestamp)) (q.map (demote now)) := by
    have : ∀ c ∈ List.filter (fun c => decide (now - dayNs < c.Timestamp))
        (q.map (demote now)), demote now c = c := by
      intro c hc
      obtain ⟨c0, _, hc0⟩ := List.mem_map.mp (List.mem_of_mem_filter hc)
      rw [← hc0, demote_idem]
    calc List.map (demote now) (List.filter _ (q.map (demote now)))
        = List.map id (List.filter (fun c => decide (now - dayNs < c.Timestamp))
            (q.map (demote now))) := List.map_congr_left this
      _ = _ := List.map_id _
  rw [h1, List.filter_filter]
  congr 1
  funext c
  rw [Bool.and_self]

/-- C6: retention is monotonic and order-preserving — the swept queue is a
sublist of the entrywise-demoted queue (so nothing is inserted and relative
order is preserved), demotion never turns `IsNew` from false to true, and
demotion changes no field other than `IsNew`. -/
theorem claim6_retention_monotone (now : Int) (q : List ChangeNotification) :
    (cleanupChangeQueue now q).Sublist (q.map (demote now)) ∧
    (∀ c, (demote now c).IsNew = true → c.IsNew = true) ∧
    (∀ c, (demote now c).BoardID = c.BoardID ∧ (demote now c).IssueKey = c.IssueKey ∧
      (demote now c).Summary = c.Summary ∧ (demote now c).Change = c.Change ∧
      (demote now c).Timestamp = c.Timestamp) := by
  refine ⟨List.filter_sublist _, ?_, ?_⟩
  · intro c h
    unfold demote at h
    by_cases hc : c.IsNew = true ∧ c.Timestamp < now - twoHoursNs
    · exact hc.1
    · rw [if_neg hc] at h
      exact h
  · intro c
    unfold demote
    split <;> exact ⟨rfl, rfl, rfl, rfl, rfl⟩

/-- Witness for C6 on a one-entry queue. -/
theorem claim6_retention_monotone_witness :
    cw0.IsNew = true ∧
    (cleanupChangeQueue 0 [cw0]).Sublist ([cw0].map (demote 0)) :=
  ⟨(claim6_retention_monotone 0 [cw0]).2.1 cw0 (by decide), (claim6_retention_monotone 0 [cw0]).1⟩

/-- C7: persistence round-trips — marshalling an AppState with `SaveState`
(which stamps `LastRun`) and loading the resulting document with `LoadState`
succeeds and yields an AppState whose stored snapshot (key, status, assignee,
lastUpdate, lastSeen) agrees with the original for every board identifier
and issue key. -/
theorem claim7_save_load_roundtrip (s : AppState) (now now2 : Int) :
    ∃ s', LoadState now2 (FileOutcome.bytes (some (SaveStateJson s now))) = Except.ok s' ∧
      ∀ b k, issueLookup s' b k = issueLookup s b k := by
  refine ⟨{ s with LastRun := now }, ?_, fun b k => rfl⟩
  show (match decodeAppState (SaveStateJson s now) with
    | some st => Except.ok st
    | none => Except.error "unmarshal") = Except.ok { s with LastRun := now }
  rw [show SaveStateJson s now = encodeAppState { s with LastRun := now } from rfl,
    decode_encode_appState]

/-- C8: loading durable state never aborts startup — for every load outcome
the application starts with either the successfully parsed state or the
empty AppState that `NewTUIApp` substitutes when `LoadState` errors (a
missing file already yields the empty state inside `LoadState`). -/
theorem claim8_load_never_fails_startup (now : Int) (f : FileOutcome) :
    (∃ j s, f = FileOutcome.bytes (some j) ∧ decodeAppState j = some s ∧
      startupState now f = s) ∨
    startupState now f = emptyAppState now := by
  cases f with
  | notExist => right; rfl
  | openFailure => right; rfl
  | readFailure => right; rfl
  | bytes p =>
    cases p with
    | none => right; rfl
    | some j =>
      cases hd : decodeAppState j with
      | some s =>
        left
        exact ⟨j, s, rfl, hd, by simp only [startupState, LoadState, hd]⟩
      | none =>
        right
        simp only [startupState, LoadState, hd]

/-- C9: starting from any AppState in which every stored BoardState is keyed
by its own `BoardID` and every IssueState by its own `Key`, each store
operation — `GetBoardState`, `UpdateIssueState`, `HasIssueChanged` —
preserves that key-consistency invariant. -/
theorem claim9_key_consistency_preserved (s : AppState) (b k status assignee lastUpdate : String) (now : Int)
    (h : KeyConsistent s) :
    KeyConsistent (GetBoardState s b).2 ∧
    KeyConsistent (UpdateIssueState s b k status assignee lastUpdate now) ∧
    KeyConsistent (HasIssueChanged s b k status assignee).2 :=
  ⟨keyConsistent_getBoardState s b h,
   keyConsistent_update s b k status assignee lastUpdate now h,
   keyConsistent_hasIssueChanged s b k status assignee h⟩

/-- Witness for C9 at a concrete consistent state. -/
theorem claim9_key_consistency_preserved_witness :
    KeyConsistent (GetBoardState oneBoardState "c").2 ∧
    KeyConsistent (UpdateIssueState oneBoardState "c" "k" "s" "a" "u" 7) ∧
    KeyConsistent (HasIssueChanged oneBoardState "c" "k" "s" "a").2 :=
  claim9_key_consistency_preserved oneBoardState "c" "k" "s" "a" "u" 7 (by decide)

/-- C10 counterexample: a single change-detection pass over a list holding
the same key twice with different statuses appends two notifications for
that (board, key) pair, refuting "at most one per pair" for every list. -/
theorem claim10_conflicting_duplicates_two_notifications :
    countBK "b" "X" ((detectAndStoreChanges 0 "b" [issueXopen, issueXclosed]
      priorBoardState).1.changeQueue) = 2 := by
  decide

/-- C10 (amended): for every fetched issue list in which all occurrences of
key `k` agree on status and normalized assignee (in particular when the
duplicate occurrences arising from concatenated iterations are identical),
one change-detection pass appends at most one ChangeNotification for the
(board, k) pair — later duplicates compare equal to the snapshot written by
the first occurrence and emit nothing. -/
theorem claim10_at_most_one_amended (now : Int) (boardID k : String) (issues : List Issue)
    (st : DetectState)
    (hag : ∀ i ∈ issues, ∀ j ∈ issues, i.Key = k → j.Key = k →
      i.Status = j.Status ∧ normalizeAssignee i = normalizeAssignee j) :
    countBK boardID k (detectAndStoreChanges now boardID issues st).1.changeQueue
      ≤ countBK boardID k st.changeQueue + 1 := by
  have h1 : countBK boardID k (detectAndStoreChanges now boardID issues st).1.changeQueue
      ≤ countBK boardID k (detectLoop now boardID issues st false).1.changeQueue :=
    countBK_inlineSweep_le now boardID k _
  exact le_trans h1 (detectLoop_count_le now boardID k issues st false hag)

/-- Witness for C10 on a duplicate-free list. -/
theorem claim10_at_most_one_amended_witness :
    countBK "b" "A" ((detectAndStoreChanges 2 "b" [issueA, issueB]
        priorBoardState).1.changeQueue)
      ≤ countBK "b" "A" priorBoardState.changeQueue + 1 :=
  claim10_at_most_one_amended 2 "b" "A" [issueA, issueB] priorBoardState (by decide)

end JiraTui
